import Mathlib

namespace EcbPipeline

/-!
Shallow embedding of `src/exchange_rates_pipeline.py`, an ETL pipeline that
fetches ECB exchange rates, persists them to a relational store and converts
order amounts to EUR.  Pure fragments of the Python source become Lean
functions; effectful fragments become explicit traces or state-passing
functions.  Python float arithmetic on rates is modelled by rationals, with
`Option ℚ` standing for a float that may be NaN (`none` is NaN).
-/

/-! ## Configuration loader (module level, source lines 17-21)

`dotenv_values` returns a dictionary of the parsed `.env` file; a key present
in the file without a value parses to python `None`.  The module indexes that
dictionary with `[...]`, which raises `KeyError` when the key is absent. -/

/-- The parsed environment file: each key maps to an optional value
(`none` models a key bound to python `None`). -/
abbrev EnvFile := List (String × Option String)

/-- Python dictionary indexing `d[key]`: the stored value when the key is
present, `KeyError` (carrying the key) otherwise. -/
def dictIndex (env : EnvFile) (key : String) : Except String (Option String) :=
  match env.find? (fun p => p.1 == key) with
  | some p => .ok p.2
  | none => .error key

/-- The five module-level configuration constants, in source order. -/
structure Config where
  public_ip : Option String
  port : Option String
  db_name : Option String
  user_name : Option String
  password : Option String

deriving DecidableEq, Repr

/-- Source lines 17-21: the five `dotenv_values(Path(".env"))[...]` lookups
performed at import time, each a dictionary indexing that raises `KeyError`
on a missing key. -/
def loadConfig (env : EnvFile) : Except String Config := do
  let ip ← dictIndex env "public_ip"
  let port ← dictIndex env "port"
  let db ← dictIndex env "db_name"
  let user ← dictIndex env "user_name"
  let pw ← dictIndex env "password"
  return { public_ip := ip, port := port, db_name := db, user_name := user, password := pw }

/-- Key presence in the environment file, used to state when `loadConfig`
succeeds. -/
def hasKey (env : EnvFile) (key : String) : Bool :=
  (env.find? (fun p => p.1 == key)).isSome

/-! ## Database connector (source lines 24-40) -/

/-- The keyword arguments that `connect_to_db` passes to `psycopg2.connect`
(source lines 32-37): `host`, `database`, `user` and `password` only. -/
structure ConnParams where
  host : Option String
  database : Option String
  user : Option String
  password : Option String

deriving DecidableEq, Repr

/-- Source lines 24-40: `connect_to_db` forwards its arguments to
`psycopg2.connect`.  The embedding returns the parameter record the driver is
called with; note the `port` parameter of the function is never forwarded. -/
def connect_to_db (public_ip : Option String) (port : Option String)
    (db_name : Option String) (user_name : Option String)
    (password : Option String) : ConnParams :=
  { host := public_ip, database := db_name, user := user_name, password := password }

/-! ## Selection of the data file inside the ZIP archive (source lines 90-91) -/

/-- Source lines 90-91: `for file_info in zip_file.infolist(): data_csv =
file_info.filename`.  After the loop, `data_csv` holds the name assigned on
the final iteration; `none` models the archive listing no files, in which
case the variable stays unbound and the subsequent use raises `NameError`. -/
def selectDataFile (fileNames : List String) : Option String :=
  fileNames.foldl (fun _ n => some n) none

/-! ## Rate fetcher: parsing (source lines 75-146) -/

/-- A cell of the parsed single-row table: missing (pandas NaN), a string,
or a number. -/
inductive CellValue where
  | na : CellValue
  | strv (s : String) : CellValue
  | numv (q : ℚ) : CellValue

deriving DecidableEq, Repr

/-- A python float value: `none` is NaN, `some q` a numeric value. -/
abbrev PyFloat := Option ℚ

/-- Python `str.strip()` on both sides, computed on the character list so
that concrete instances evaluate inside the kernel. -/
def pyStrip (s : String) : String :=
  ((s.data.dropWhile Char.isWhitespace).reverse.dropWhile Char.isWhitespace).reverse.asString

/-- Digits of a decimal literal: `none` when the list is empty or a
non-digit occurs. -/
def digitsToNat : List Char → Option ℕ
  | [] => none
  | cs =>
    cs.foldl
      (fun acc c =>
        acc.bind (fun n => if c.isDigit then some (10 * n + (c.toNat - ('0').toNat)) else none))
      (some 0)

/-- Split at the first decimal point: the characters before it, and those
after it when a point occurs at all. -/
def splitDot : List Char → List Char × Option (List Char)
  | [] => ([], none)
  | c :: cs =>
    if c == ('.') then ([], some cs)
    else
      let r := splitDot cs
      (c :: r.1, r.2)

/-- Python `float(s)` on a string: strips surrounding whitespace, accepts an
optional sign and a decimal literal (`digits`, `digits.digits`, `.digits` or
`digits.`); `none` models `ValueError`, which in particular covers the blank
string.  Spellings not occurring in the data handled here (exponents, `nan`,
`inf`) are not modelled. -/
def pyFloatOfString (s : String) : Option ℚ :=
  let t := (pyStrip s).data
  let neg := t.head? == some ('-')
  let sgn : ℚ := if neg then -1 else 1
  let body := if neg || (t.head? == some ('+')) then t.drop 1 else t
  match splitDot body with
  | (ip, none) => (digitsToNat ip).map (fun n => sgn * n)
  | (ip, some fp) =>
    if ip.isEmpty && fp.isEmpty then none
    else
      match (if ip.isEmpty then some 0 else digitsToNat ip),
          (if fp.isEmpty then some 0 else digitsToNat fp) with
      | some n, some f => some (sgn * ((n : ℚ) + (f : ℚ) / (10 : ℚ) ^ fp.length))
      | _, _ => none

/-- Python `float(value)` on a table cell (source line 122): NaN stays NaN,
numbers stay themselves, strings are parsed; a non-numeric string raises
`ValueError` (the error carries the offending string). -/
def pyFloat : CellValue → Except String PyFloat
  | .na => .ok none
  | .numv q => .ok (some q)
  | .strv s =>
    match pyFloatOfString s with
    | some q => .ok (some q)
    | none => .error s

/-- Python `s.isspace()`: non-empty and all characters whitespace. -/
def pyIsSpace (s : String) : Bool :=
  !s.data.isEmpty && s.data.all Char.isWhitespace

/-- The warning condition of source lines 116-118:
`pd.isna(value) or (isinstance(value, str) and not value.strip())`. -/
def shouldWarn : CellValue → Bool
  | .na => true
  | .strv s => pyStrip s == ""
  | .numv _ => false

/-- Python dictionary assignment `d[k] = v` on an insertion-ordered
dictionary represented as a key-value list: overwrite in place when the key
is already bound, append otherwise. -/
def dictInsert : List (String × PyFloat) → String → PyFloat → List (String × PyFloat)
  | [], k, v => [(k, v)]
  | p :: t, k, v => if p.1 == k then (k, v) :: t else p :: dictInsert t k v

/-- Python dictionary lookup on a key-value list. -/
def dictLookup {α : Type} (d : List (String × α)) (k : String) : Option α :=
  (d.find? (fun p => p.1 == k)).map Prod.snd

/-- Source lines 107-122, the rate-building loop over the currency columns
(each paired with its first-row value): a blank or whitespace-only name is
skipped with `continue`; a missing or blank value only appends a warning to
the log; the value is then coerced with `float`, whose failure aborts the
loop (`ValueError`, carrying the warnings already logged), and the coerced
value is stored under the stripped name. -/
def processRates :
    List (String × CellValue) → List (String × PyFloat) → List String →
    Except (String × List String) (List (String × PyFloat) × List String)
  | [], rates, warns => .ok (rates, warns)
  | (currency, value) :: rest, rates, warns =>
    if currency == "" || pyIsSpace currency then
      processRates rest rates warns
    else
      let warns' := if shouldWarn value then warns ++ [currency] else warns
      match pyFloat value with
      | .ok q => processRates rest (dictInsert rates (pyStrip currency) q) warns'
      | .error e => .error (e, warns')

/-- Source lines 97-100: column-name cleanup, `col.strip()` for a string
header and a name fabricated from the position for a non-string header. -/
def cleanName (i : ℕ) : Option String → String
  | some s => pyStrip s
  | none => "column_" ++ toString i

/-- The parsed single-row table: the first column is the publication date,
the remaining columns are currency columns, each with its raw header
(`none` for a non-string header) and its single data value. -/
structure Table where
  dateHeader : Option String
  dateValue : CellValue
  rateCols : List (Option String × CellValue)

deriving DecidableEq, Repr

/-- The currency columns after cleanup (`df.columns[1:]` with the cleanup of
source lines 97-100 applied; positions start at 1 because position 0 is the
date column), each paired with its first-row value. -/
def ratePairsAux : ℕ → List (Option String × CellValue) → List (String × CellValue)
  | _, [] => []
  | i, (h, v) :: rest => (cleanName i h, v) :: ratePairsAux (i + 1) rest

def ratePairs (t : Table) : List (String × CellValue) :=
  ratePairsAux 1 t.rateCols

/-- The possible shapes of the HTTP response consumed by the fetcher. -/
inductive FetchInput where
  | httpError : FetchInput
  | badZip : FetchInput
  | zipPayload (fileNames : List String) (table : Table) : FetchInput

deriving DecidableEq, Repr

deriving instance DecidableEq for Except

/-- The observable outcome of the fetch step: the returned mapping (or the
raised error, paired with the warnings logged before it), the local files
written, and the database mutations performed (the fetch step performs
none). -/
structure FetchOutcome where
  result : Except (String × List String) (List (String × PyFloat))
  fileWrites : List String
  dbWrites : List String

deriving DecidableEq, Repr

/-- Source lines 75-146, `import_exchange_rate_from_csv_zip`: download
(raising on HTTP failure), open the archive (raising `BadZipFile` on a
malformed payload, before anything is written), take the data file recorded
by the listing loop, build the rate mapping, force the EUR entry to 1.0, and
only then write the dated local snapshot file.  No database access occurs
anywhere in the function. -/
def import_exchange_rate_from_csv_zip (input : FetchInput)
    (exportBasePath today : String) : FetchOutcome :=
  match input with
  | .httpError =>
    { result := .error ("RequestException", []), fileWrites := [], dbWrites := [] }
  | .badZip =>
    { result := .error ("BadZipFile", []), fileWrites := [], dbWrites := [] }
  | .zipPayload fileNames table =>
    match selectDataFile fileNames with
    | none => { result := .error ("NameError", []), fileWrites := [], dbWrites := [] }
    | some _ =>
      match processRates (ratePairs table) [] [] with
      | .error e => { result := .error e, fileWrites := [], dbWrites := [] }
      | .ok (rates, _) =>
        { result := .ok (dictInsert rates "EUR" (some 1)),
          fileWrites := [exportBasePath ++ "/eurofxref-" ++ today ++ ".csv"],
          dbWrites := [] }

/-! ## Currency converter (source lines 178-198) -/

/-- A row of the externally owned orders table, restricted to the columns the
UPDATE statement reads and writes. -/
structure Order where
  currency_code : String
  revenue : ℚ
  order_discount : ℚ
  converted_amount_eur : Option ℚ

deriving DecidableEq, Repr

/-- The joined rate for a currency code, the rates table abstracted to its
`currency_code` and `rate` columns. -/
def lookupRate (rates : List (String × ℚ)) (c : String) : Option ℚ :=
  (rates.find? (fun p => p.1 == c)).map Prod.snd

/-- The effect of the UPDATE of source lines 183-194 on one order row: when a
rates row joins on `currency_code`, set `converted_amount_eur` per the CASE
expression (no division for EUR, division by the joined rate otherwise);
an order without a joining row is not part of the UPDATE and is unchanged. -/
def convertOrder (rates : List (String × ℚ)) (o : Order) : Order :=
  match lookupRate rates o.currency_code with
  | none => o
  | some rate =>
    { o with
      converted_amount_eur :=
        some (if o.currency_code == "EUR" then o.revenue - o.order_discount
          else (o.revenue - o.order_discount) / rate) }

/-- Source lines 178-198: the single UPDATE applied across the orders table. -/
def convert_order_details_currency (rates : List (String × ℚ))
    (orders : List Order) : List Order :=
  orders.map (convertOrder rates)

/-! ## Connection scoping of the database-touching steps (source lines
63-72, 159-175 and 181-198)

Each step wraps its work in `with connect_to_db() as conn:`.  For a psycopg2
connection object the context manager commits the transaction on normal exit
of the block and rolls it back when the block raises an exception; it does
not close the connection object.  The traces below record the connection
events of each step, on the success path and on the path where the executed
statement raises a database error. -/

/-- Connection events a database-touching step can emit. -/
inductive DbEvent where
  | openConn : DbEvent
  | execute (sql : String) : DbEvent
  | commit : DbEvent
  | rollback : DbEvent
  | close : DbEvent

deriving DecidableEq, Repr

/-- The psycopg2 `with connect_to_db() as conn:` block: one connection is
opened, the body's events follow, and leaving the block commits on success
and rolls back on an exception; the context manager emits no close event. -/
def withConn (body : List DbEvent) (ok : Bool) : List DbEvent :=
  DbEvent.openConn :: body ++ [if ok then DbEvent.commit else DbEvent.rollback]

/-- Source lines 63-72, `update_schemas`: execute the schema file's statement
batch and commit explicitly, inside the connection block; on a database
error the body stops at the failed execute. -/
def update_schemas_events (ok : Bool) : List DbEvent :=
  withConn (if ok then [.execute "schema", .commit] else [.execute "schema"]) ok

/-- Source lines 149-175, `write_latest_exchange_rates`: run the bulk upsert
and commit explicitly, inside the connection block. -/
def write_latest_exchange_rates_events (ok : Bool) : List DbEvent :=
  withConn (if ok then [.execute "upsert", .commit] else [.execute "upsert"]) ok

/-- Source lines 178-198, `convert_order_details_currency`: run the UPDATE
and commit explicitly, inside the connection block. -/
def convert_order_details_currency_events (ok : Bool) : List DbEvent :=
  withConn (if ok then [.execute "update orders", .commit] else [.execute "update orders"]) ok

/-- A step trace that opens exactly one connection, first, commits exactly on
success, rolls back exactly on failure, and never closes the connection. -/
abbrev ScopedNoClose (evs : List DbEvent) (ok : Bool) : Prop :=
  evs.head? = some DbEvent.openConn ∧ evs.count DbEvent.openConn = 1 ∧
    (DbEvent.commit ∈ evs ↔ ok = true) ∧ (DbEvent.rollback ∈ evs ↔ ok = false) ∧
    DbEvent.close ∉ evs

/-! ## Rate writer (source lines 149-175) -/

/-- A row of the `ecb_exchange_rates` table: the three columns the upsert
statement touches, plus an abstract further column that the statement leaves
untouched (at its default `none` until something else sets it). -/
structure RateRow where
  currency_code : String
  rate : PyFloat
  updated_at : ℕ
  extra : Option ℤ

deriving DecidableEq, Repr

/-- One row of the bulk `INSERT ... ON CONFLICT (currency_code) DO UPDATE
SET rate = EXCLUDED.rate, updated_at = EXCLUDED.updated_at`: a row whose code
is already present keeps its place and its other columns and takes the new
rate and timestamp; otherwise the new row is appended with its further
columns at their default. -/
def upsertRow : List RateRow → String → PyFloat → ℕ → List RateRow
  | [], code, r, t =>
    [{ currency_code := code, rate := r, updated_at := t, extra := none }]
  | row :: rest, code, r, t =>
    if row.currency_code == code then
      { row with rate := r, updated_at := t } :: rest
    else
      row :: upsertRow rest code r t

/-- Source lines 149-175, `write_latest_exchange_rates`: one row per mapping
entry, tagged with the write's timestamp, upserted keyed on `currency_code`
(the mapping's keys are unique since it comes from a python dictionary, so
the bulk statement acts as the sequence of per-row upserts). -/
def write_latest_exchange_rates (rates : List (String × PyFloat)) (now : ℕ)
    (tbl : List RateRow) : List RateRow :=
  rates.foldl (fun acc p => upsertRow acc p.1 p.2 now) tbl

/-- The codes column of the table. -/
def tableCodes (tbl : List RateRow) : List String :=
  tbl.map RateRow.currency_code

/-- The first row carrying a code (the table's primary key keeps codes
unique, so the first is the only one). -/
def findRow (tbl : List RateRow) (code : String) : Option RateRow :=
  tbl.find? (fun row => row.currency_code == code)

/-- The `extra` column of an optionally found row. -/
def extraOf : Option RateRow → Option ℤ
  | some row => row.extra
  | none => none

/-! ## Theorems -/

theorem dictIndex_isOk (env : EnvFile) (key : String) :
    (dictIndex env key).isOk = hasKey env key := by
  unfold dictIndex hasKey
  cases env.find? (fun p => p.1 == key) <;> rfl

theorem selectDataFile_eq_getLast_aux (t : List String) :
    ∀ a : String, List.foldl (fun _ n => some n) (some a) t = (a :: t).getLast? := by
  induction t with
  | nil => intro a; rfl
  | cons b u ih =>
    intro a
    have h := ih b
    simp only [List.foldl_cons] at h ⊢
    rw [h]
    exact (List.getLast?_cons_cons).symm

/-- C4 counterexample: on an environment file that lacks the `public_ip` key,
the configuration loader raises `KeyError` at read time; it does not produce
a config with a null value for that key. -/
theorem loadConfig_missing_key_raises :
    loadConfig [("port", some "5432"), ("db_name", some "db"),
      ("user_name", some "u"), ("password", some "p")] = .error "public_ip" := by
  rfl

/-- C4 (amended): the configuration loader succeeds exactly when all five keys
are present in the environment file; when it succeeds, a key present with a
null value yields a null config entry, and the connector is invoked with
exactly those (possibly null) values. -/
theorem loadConfig_presence (env : EnvFile) :
    ((loadConfig env).isOk ↔
      (hasKey env "public_ip" ∧ hasKey env "port" ∧ hasKey env "db_name" ∧
        hasKey env "user_name" ∧ hasKey env "password")) ∧
    (∀ cfg, loadConfig env = .ok cfg →
      connect_to_db cfg.public_ip cfg.port cfg.db_name cfg.user_name cfg.password =
        { host := cfg.public_ip, database := cfg.db_name, user := cfg.user_name,
          password := cfg.password }) := by
  constructor
  · unfold loadConfig
    rw [← dictIndex_isOk, ← dictIndex_isOk, ← dictIndex_isOk, ← dictIndex_isOk,
      ← dictIndex_isOk]
    cases dictIndex env "public_ip" <;>
      cases dictIndex env "port" <;>
        cases dictIndex env "db_name" <;>
          cases dictIndex env "user_name" <;>
            cases dictIndex env "password" <;>
              simp [Except.isOk, Except.toBool, bind, Except.bind, pure, Except.pure]
  · intro cfg _
    rfl

/-- C4 (amended) witness at a concrete environment file. -/
theorem loadConfig_presence_witness :
    ((loadConfig [("public_ip", some "h"), ("port", none), ("db_name", some "db"),
        ("user_name", some "u"), ("password", some "p")]).isOk ↔
      (hasKey [("public_ip", some "h"), ("port", none), ("db_name", some "db"),
          ("user_name", some "u"), ("password", some "p")] "public_ip" ∧
        hasKey [("public_ip", some "h"), ("port", none), ("db_name", some "db"),
          ("user_name", some "u"), ("password", some "p")] "port" ∧
        hasKey [("public_ip", some "h"), ("port", none), ("db_name", some "db"),
          ("user_name", some "u"), ("password", some "p")] "db_name" ∧
        hasKey [("public_ip", some "h"), ("port", none), ("db_name", some "db"),
          ("user_name", some "u"), ("password", some "p")] "user_name" ∧
        hasKey [("public_ip", some "h"), ("port", none), ("db_name", some "db"),
          ("user_name", some "u"), ("password", some "p")] "password")) ∧
    (∀ cfg, loadConfig [("public_ip", some "h"), ("port", none), ("db_name", some "db"),
        ("user_name", some "u"), ("password", some "p")] = .ok cfg →
      connect_to_db cfg.public_ip cfg.port cfg.db_name cfg.user_name cfg.password =
        { host := cfg.public_ip, database := cfg.db_name, user := cfg.user_name,
          password := cfg.password }) :=
  loadConfig_presence [("public_ip", some "h"), ("port", none), ("db_name", some "db"),
    ("user_name", some "u"), ("password", some "p")]

/-- C6 counterexample: two calls of `connect_to_db` that differ only in the
port build the same driver call, so the resulting connection does not depend
on the supplied port value. -/
theorem connect_to_db_ignores_port_at_input :
    connect_to_db (some "10.0.0.1") (some "5432") (some "orders") (some "etl") (some "pw")
      = connect_to_db (some "10.0.0.1") (some "9999") (some "orders") (some "etl") (some "pw")
    ∧ (some "5432" : Option String) ≠ some "9999" :=
  ⟨rfl, by decide⟩

/-- C6 (amended): `connect_to_db` opens the connection with host, database
name, user and password; the port value is accepted but never passed to the
driver, so the resulting connection is independent of it. -/
theorem connect_to_db_uses_four_values
    (public_ip port port' db_name user_name password : Option String) :
    connect_to_db public_ip port db_name user_name password =
      connect_to_db public_ip port' db_name user_name password ∧
    connect_to_db public_ip port db_name user_name password =
      { host := public_ip, database := db_name, user := user_name, password := password } :=
  ⟨rfl, rfl⟩

/-- C2 counterexample: on an archive listing two files, the loop leaves the
last file name in `data_csv`, not the first. -/
theorem selectDataFile_takes_last_at_input :
    selectDataFile ["eurofxref.csv", "extra.txt"] = some "extra.txt" ∧
    List.head? ["eurofxref.csv", "extra.txt"] = some "eurofxref.csv" ∧
    (some "extra.txt" : Option String) ≠ some "eurofxref.csv" :=
  ⟨rfl, rfl, by decide⟩

/-- C2 (amended): for every downloaded archive,
`import_exchange_rate_from_csv_zip` selects the last file listed in the
archive as the tabular data file to parse, regardless of how many files the
archive contains (no file is selected when the archive is empty). -/
theorem selectDataFile_eq_getLast (fileNames : List String) :
    selectDataFile fileNames = fileNames.getLast? := by
  cases fileNames with
  | nil => rfl
  | cons a t =>
    simpa [selectDataFile] using selectDataFile_eq_getLast_aux t a

theorem pyFloatOfString_blank (s : String) (hs : pyStrip s = "") :
    pyFloatOfString s = none := by
  unfold pyFloatOfString
  rw [hs]
  rfl

theorem dictLookup_dictInsert_self (d : List (String × PyFloat)) (k : String) (v : PyFloat) :
    dictLookup (dictInsert d k v) k = some v := by
  induction d with
  | nil => simp [dictInsert, dictLookup]
  | cons p t ih =>
    by_cases hp : p.1 == k
    · simp [dictInsert, dictLookup, hp]
    · simp only [dictInsert, hp, if_neg, Bool.false_eq_true, not_false_iff, ite_false]
      simpa [dictLookup, List.find?_cons, hp] using ih

theorem processRates_cons_skip (name : String)
    (hname : (name == "" || pyIsSpace name) = true) (v : CellValue)
    (rest : List (String × CellValue)) (rates : List (String × PyFloat))
    (warns : List String) :
    processRates ((name, v) :: rest) rates warns = processRates rest rates warns := by
  simp [processRates, hname]

theorem processRates_cons_keep (name : String)
    (hname : (name == "" || pyIsSpace name) = false) (v : CellValue)
    (rest : List (String × CellValue)) (rates : List (String × PyFloat))
    (warns : List String) :
    processRates ((name, v) :: rest) rates warns =
      match pyFloat v with
      | .ok q => processRates rest (dictInsert rates (pyStrip name) q)
          (if shouldWarn v then warns ++ [name] else warns)
      | .error e => .error (e, if shouldWarn v then warns ++ [name] else warns) := by
  simp [processRates, hname]

theorem ratePairsAux_index_free (cols : List (Option String × CellValue))
    (hcols : ∀ p ∈ cols, p.1.isSome) (i j : ℕ) :
    ratePairsAux i cols = ratePairsAux j cols := by
  induction cols generalizing i j with
  | nil => rfl
  | cons p t ih =>
    obtain ⟨h, v⟩ := p
    cases h with
    | none =>
      have hmem := hcols (none, v) (List.mem_cons_self _ _)
      simp at hmem
    | some s =>
      simp only [ratePairsAux, cleanName]
      rw [ih (fun q hq => hcols q (List.mem_cons_of_mem _ hq)) (i + 1) (j + 1)]

theorem processRates_blank_col (s : String) (hs : pyStrip s = "") (v : CellValue)
    (pre post : List (Option String × CellValue)) (hpost : ∀ p ∈ post, p.1.isSome) :
    ∀ (i : ℕ) (rates : List (String × PyFloat)) (warns : List String),
      processRates (ratePairsAux i (pre ++ (some s, v) :: post)) rates warns =
      processRates (ratePairsAux i (pre ++ post)) rates warns := by
  induction pre with
  | nil =>
    intro i rates warns
    simp only [List.nil_append, ratePairsAux, cleanName, hs]
    rw [processRates_cons_skip "" (by decide) v]
    rw [ratePairsAux_index_free post hpost (i + 1) i]
  | cons p t ih =>
    intro i rates warns
    obtain ⟨h, v0⟩ := p
    simp only [List.cons_append, ratePairsAux, List.append_eq]
    by_cases hskip : (cleanName i h == "" || pyIsSpace (cleanName i h)) = true
    · rw [processRates_cons_skip _ hskip, processRates_cons_skip _ hskip,
        ih (i + 1) rates warns]
    · have hskip' : (cleanName i h == "" || pyIsSpace (cleanName i h)) = false := by
        simpa using hskip
      rw [processRates_cons_keep _ hskip', processRates_cons_keep _ hskip']
      cases pyFloat v0 with
      | ok q => exact ih (i + 1) _ _
      | error e => rfl

/-- C3: a currency column with a non-blank, non-whitespace name and a missing
value is logged as a warning but not excluded: the NaN is still coerced by
`float` and stored under the stripped name; when the value is a blank string
instead, the `float` coercion raises `ValueError` (after the warning has been
logged) rather than the column being skipped. -/
theorem missing_value_warned_not_skipped (currency : String)
    (hname : (currency == "" || pyIsSpace currency) = false)
    (rest : List (String × CellValue)) (rates : List (String × PyFloat))
    (warns : List String) (b : String) (hb : pyStrip b = "") :
    processRates ((currency, .na) :: rest) rates warns =
      processRates rest (dictInsert rates (pyStrip currency) none) (warns ++ [currency]) ∧
    processRates ((currency, .strv b) :: rest) rates warns =
      .error (b, warns ++ [currency]) := by
  constructor
  · simp [processRates, hname, shouldWarn, pyFloat]
  · have hq := pyFloatOfString_blank b hb
    simp [processRates, hname, shouldWarn, pyFloat, hb, hq]

/-- C3 witness: a concrete missing value is stored, a concrete blank string
value raises. -/
theorem missing_value_warned_not_skipped_witness :
    (processRates [("USD", .na)] [] [] =
        processRates [] (dictInsert [] (pyStrip "USD") none) ([] ++ ["USD"]) ∧
      processRates [("USD", .strv " ")] [] [] = .error (" ", [] ++ ["USD"])) :=
  missing_value_warned_not_skipped "USD" (by decide) [] [] [] " " (by decide)

/-- C7: whenever the fetch step returns a rate mapping, the mapping contains
the key EUR bound to exactly 1.0, whether or not the source table had a EUR
column. -/
theorem eur_rate_always_one (input : FetchInput) (exportBasePath today : String)
    (r : List (String × PyFloat))
    (hr : (import_exchange_rate_from_csv_zip input exportBasePath today).result = .ok r) :
    dictLookup r "EUR" = some (some 1) := by
  cases input with
  | httpError => simp [import_exchange_rate_from_csv_zip] at hr
  | badZip => simp [import_exchange_rate_from_csv_zip] at hr
  | zipPayload fileNames table =>
    simp only [import_exchange_rate_from_csv_zip] at hr
    cases hsel : selectDataFile fileNames with
    | none => rw [hsel] at hr; simp at hr
    | some f =>
      rw [hsel] at hr
      cases hproc : processRates (ratePairs table) [] [] with
      | error e => rw [hproc] at hr; simp at hr
      | ok pr =>
        rw [hproc] at hr
        obtain ⟨rates, warns⟩ := pr
        simp at hr
        rw [← hr]
        exact dictLookup_dictInsert_self rates "EUR" (some 1)

/-- C7 witness at a concrete table without a EUR column. -/
theorem eur_rate_always_one_witness :
    dictLookup [("USD", (some 2 : PyFloat)), ("EUR", (some 1 : PyFloat))] "EUR" =
      some (some 1) :=
  eur_rate_always_one
    (.zipPayload ["eurofxref.csv"]
      { dateHeader := some "Date", dateValue := .strv "14 October 2025",
        rateCols := [(some "USD", .numv 2)] })
    "data/exchange_rates" "2025-10-14"
    [("USD", some 2), ("EUR", some 1)] (by decide)

/-- C8: on a malformed archive payload the fetch step raises the archive
error, writes no local snapshot file, and performs no database mutation. -/
theorem badzip_fails_without_writes (exportBasePath today : String) :
    (import_exchange_rate_from_csv_zip .badZip exportBasePath today).result =
      .error ("BadZipFile", []) ∧
    (import_exchange_rate_from_csv_zip .badZip exportBasePath today).fileWrites = [] ∧
    (import_exchange_rate_from_csv_zip .badZip exportBasePath today).dbWrites = [] :=
  ⟨rfl, rfl, rfl⟩

/-- C10: a currency column whose header is blank or whitespace-only is
excluded from the returned rate mapping: the fetch result is the same as for
the table without that column (the remaining columns are assumed to carry
string headers, so that no fabricated positional name shifts). -/
theorem blank_name_column_excluded (fileNames : List String)
    (exportBasePath today : String) (dh : Option String) (dv : CellValue)
    (pre post : List (Option String × CellValue)) (hpost : ∀ p ∈ post, p.1.isSome)
    (s : String) (hs : pyStrip s = "") (v : CellValue) :
    (import_exchange_rate_from_csv_zip
        (.zipPayload fileNames
          { dateHeader := dh, dateValue := dv,
            rateCols := pre ++ (some s, v) :: post }) exportBasePath today).result =
    (import_exchange_rate_from_csv_zip
        (.zipPayload fileNames
          { dateHeader := dh, dateValue := dv,
            rateCols := pre ++ post }) exportBasePath today).result := by
  simp only [import_exchange_rate_from_csv_zip]
  cases selectDataFile fileNames with
  | none => rfl
  | some f =>
    simp only [ratePairs]
    rw [processRates_blank_col s hs v pre post hpost 1 [] []]

/-- C10 witness: a concrete whitespace-named column between two currency
columns does not change the fetch result. -/
theorem blank_name_column_excluded_witness :
    (import_exchange_rate_from_csv_zip
        (.zipPayload ["eurofxref.csv"]
          { dateHeader := some "Date", dateValue := .strv "14 October 2025",
            rateCols := [(some "USD", .numv 2)] ++
              (some " ", .numv 5) :: [(some "JPY", .numv 3)] })
        "data" "2025-10-14").result =
    (import_exchange_rate_from_csv_zip
        (.zipPayload ["eurofxref.csv"]
          { dateHeader := some "Date", dateValue := .strv "14 October 2025",
            rateCols := [(some "USD", .numv 2)] ++ [(some "JPY", .numv 3)] })
        "data" "2025-10-14").result :=
  blank_name_column_excluded ["eurofxref.csv"] "data" "2025-10-14" (some "Date")
    (.strv "14 October 2025") [(some "USD", .numv 2)] [(some "JPY", .numv 3)]
    (by decide) " " (by decide) (.numv 5)

theorem lookupRate_mem (rates : List (String × ℚ))
    (hnd : (rates.map Prod.fst).Nodup) (c : String) (rate : ℚ)
    (hmem : (c, rate) ∈ rates) : lookupRate rates c = some rate := by
  induction rates with
  | nil => simp at hmem
  | cons p t ih =>
    simp only [List.map_cons, List.nodup_cons] at hnd
    rcases List.mem_cons.mp hmem with h | h
    · rw [← h]
      simp [lookupRate]
    · have hne : (p.1 == c) = false := by
        refine beq_eq_false_iff_ne.mpr ?_
        intro hh
        exact hnd.1 (List.mem_map.mpr ⟨(c, rate), h, hh.symm⟩)
      simp only [lookupRate, List.find?_cons, hne]
      exact ih hnd.2 h

theorem lookupRate_not_mem (rates : List (String × ℚ)) (c : String)
    (h : ∀ p ∈ rates, p.1 ≠ c) : lookupRate rates c = none := by
  have hf : rates.find? (fun p => p.1 == c) = none := by
    rw [List.find?_eq_none]
    intro x hx
    simpa using h x hx
  simp [lookupRate, hf]

/-- C1: after the conversion UPDATE, an order whose currency code equals the
code of some rates row (codes unique, as the table's primary key guarantees)
has `converted_amount_eur = revenue - order_discount` when the code is EUR
and `(revenue - order_discount) / rate` otherwise, with its other columns
unchanged; an order whose code matches no rates row is left entirely
unmodified. -/
theorem convert_order_details_currency_correct (rates : List (String × ℚ))
    (hnd : (rates.map Prod.fst).Nodup) (orders : List Order) (i : ℕ)
    (hi : i < orders.length)
    (hlen : i < (convert_order_details_currency rates orders).length) :
    (∀ rate, ((orders.get ⟨i, hi⟩).currency_code, rate) ∈ rates →
      (convert_order_details_currency rates orders).get ⟨i, hlen⟩ =
        { orders.get ⟨i, hi⟩ with
          converted_amount_eur :=
            some (if (orders.get ⟨i, hi⟩).currency_code == "EUR"
              then (orders.get ⟨i, hi⟩).revenue - (orders.get ⟨i, hi⟩).order_discount
              else ((orders.get ⟨i, hi⟩).revenue -
                (orders.get ⟨i, hi⟩).order_discount) / rate) }) ∧
    ((∀ p ∈ rates, p.1 ≠ (orders.get ⟨i, hi⟩).currency_code) →
      (convert_order_details_currency rates orders).get ⟨i, hlen⟩ =
        orders.get ⟨i, hi⟩) := by
  have hget : (convert_order_details_currency rates orders).get ⟨i, hlen⟩ =
      convertOrder rates (orders.get ⟨i, hi⟩) := by
    simp [convert_order_details_currency]
  constructor
  · intro rate hmem
    rw [hget]
    unfold convertOrder
    rw [lookupRate_mem rates hnd _ rate hmem]
  · intro hno
    rw [hget]
    unfold convertOrder
    rw [lookupRate_not_mem rates _ hno]

/-- C1 witness: the conversion test case of the specification, rates
EUR = 1.0, USD = 2.0 and a USD order with revenue 100 and discount 10, whose
converted amount comes out as 45. -/
theorem convert_order_details_currency_correct_witness :
    (convert_order_details_currency [("EUR", (1 : ℚ)), ("USD", 2)]
        [{ currency_code := "USD", revenue := 100, order_discount := 10,
           converted_amount_eur := none }]).get ⟨0, by decide⟩ =
      { currency_code := "USD", revenue := 100, order_discount := 10,
        converted_amount_eur := some 45 } := by
  have h := (convert_order_details_currency_correct [("EUR", (1 : ℚ)), ("USD", 2)]
    (by decide)
    [{ currency_code := "USD", revenue := 100, order_discount := 10,
       converted_amount_eur := none }] 0 (by decide) (by decide)).1 2 (by decide)
  rw [h]
  norm_num
  decide

/-- C5 counterexample: no step emits a close event on any exit path — in
particular the schema step's successful run does not release (close) its
connection, contrary to the claimed guaranteed release. -/
theorem no_close_event_at_input :
    DbEvent.close ∉ update_schemas_events true ∧
    DbEvent.close ∉ update_schemas_events false ∧
    DbEvent.close ∉ write_latest_exchange_rates_events true ∧
    DbEvent.close ∉ write_latest_exchange_rates_events false ∧
    DbEvent.close ∉ convert_order_details_currency_events true ∧
    DbEvent.close ∉ convert_order_details_currency_events false := by
  decide

/-- C5 (amended): every database-touching step opens exactly one connection
of its own, commits exactly on success and rolls back exactly on failure via
the connection context manager, but no step closes its connection on any
exit path: release is left to interpreter teardown. -/
theorem step_connection_scoping (ok : Bool) :
    ScopedNoClose (update_schemas_events ok) ok ∧
    ScopedNoClose (write_latest_exchange_rates_events ok) ok ∧
    ScopedNoClose (convert_order_details_currency_events ok) ok := by
  cases ok <;> decide

theorem extraOf_some (row : RateRow) : extraOf (some row) = row.extra := rfl

theorem findRow_upsertRow_self (tbl : List RateRow) (code : String)
    (r : PyFloat) (t : ℕ) :
    findRow (upsertRow tbl code r t) code =
      some { currency_code := code, rate := r, updated_at := t,
             extra := extraOf (findRow tbl code) } := by
  induction tbl with
  | nil => simp [upsertRow, findRow, extraOf]
  | cons row rest ih =>
    obtain ⟨cc, rr, uu, ee⟩ := row
    by_cases h : (cc == code) = true
    · have hcc : cc = code := eq_of_beq h
      subst hcc
      simp [upsertRow, findRow, extraOf]
    · simpa [upsertRow, findRow, extraOf, h] using ih

theorem findRow_upsertRow_other (tbl : List RateRow) (code c : String)
    (hne : c ≠ code) (r : PyFloat) (t : ℕ) :
    findRow (upsertRow tbl code r t) c = findRow tbl c := by
  have hcodec : (code == c) = false := beq_eq_false_iff_ne.mpr (fun hh => hne hh.symm)
  induction tbl with
  | nil => simp [upsertRow, findRow, hcodec]
  | cons row rest ih =>
    by_cases h : (row.currency_code == code) = true
    · have hcc : row.currency_code = code := eq_of_beq h
      have hc : (row.currency_code == c) = false := by rw [hcc]; exact hcodec
      simp [upsertRow, findRow, h, hc]
    · by_cases hc : (row.currency_code == c) = true
      · simp [upsertRow, findRow, h, hc]
      · simpa [upsertRow, findRow, h, hc] using ih

theorem mem_tableCodes_upsertRow (tbl : List RateRow) (code : String)
    (r : PyFloat) (t : ℕ) (x : String)
    (hx : x ∈ tableCodes (upsertRow tbl code r t)) :
    x ∈ tableCodes tbl ∨ x = code := by
  induction tbl with
  | nil =>
    simp [upsertRow, tableCodes] at hx
    exact Or.inr hx
  | cons row rest ih =>
    by_cases h : (row.currency_code == code) = true
    · simp only [upsertRow, h, if_true, tableCodes, List.map_cons] at hx
      simp only [tableCodes, List.map_cons]
      exact Or.inl (by simpa using hx)
    · simp only [upsertRow, h, Bool.false_eq_true, if_false, tableCodes,
        List.map_cons, List.mem_cons] at hx
      simp only [tableCodes, List.map_cons, List.mem_cons]
      rcases hx with hx | hx
      · exact Or.inl (Or.inl hx)
      · rcases ih (by simpa [tableCodes] using hx) with h1 | h1
        · exact Or.inl (Or.inr (by simpa [tableCodes] using h1))
        · exact Or.inr h1

theorem nodup_upsertRow (tbl : List RateRow) (hnd : (tableCodes tbl).Nodup)
    (code : String) (r : PyFloat) (t : ℕ) :
    (tableCodes (upsertRow tbl code r t)).Nodup := by
  induction tbl with
  | nil => simp [upsertRow, tableCodes]
  | cons row rest ih =>
    simp only [tableCodes, List.map_cons, List.nodup_cons] at hnd
    by_cases h : (row.currency_code == code) = true
    · simp only [upsertRow, h, if_true, tableCodes, List.map_cons, List.nodup_cons]
      exact ⟨by simpa [tableCodes] using hnd.1, by simpa [tableCodes] using hnd.2⟩
    · have hne : row.currency_code ≠ code := by
        intro hh
        rw [hh] at h
        simp at h
      simp only [upsertRow, h, Bool.false_eq_true, if_false, tableCodes,
        List.map_cons, List.nodup_cons]
      constructor
      · intro hmem
        rcases mem_tableCodes_upsertRow rest code r t _ (by simpa [tableCodes] using hmem)
          with h1 | h1
        · exact hnd.1 (by simpa [tableCodes] using h1)
        · exact hne h1
      · simpa [tableCodes] using ih (by simpa [tableCodes] using hnd.2)

theorem filter_eq_of_findRow (tbl : List RateRow) (hnd : (tableCodes tbl).Nodup)
    (code : String) (row : RateRow) (hf : findRow tbl code = some row) :
    tbl.filter (fun r0 => r0.currency_code == code) = [row] := by
  induction tbl with
  | nil => simp [findRow] at hf
  | cons row0 rest ih =>
    simp only [tableCodes, List.map_cons, List.nodup_cons] at hnd
    by_cases h : (row0.currency_code == code) = true
    · have hrow : row0 = row := by
        simpa [findRow, List.find?_cons, h] using hf
      have hcc : row0.currency_code = code := eq_of_beq h
      have hrest : rest.filter (fun r0 => r0.currency_code == code) = [] := by
        rw [List.filter_eq_nil_iff]
        intro a ha hpa
        apply hnd.1
        rw [hcc]
        exact List.mem_map.mpr ⟨a, ha, eq_of_beq hpa⟩
      subst hrow
      simp [List.filter_cons, h, hrest]
    · have hfr : findRow rest code = some row := by
        simpa [findRow, List.find?_cons, h] using hf
      have hrest := ih hnd.2 hfr
      simp [List.filter_cons, h, hrest]

theorem findRow_write_not_mem (rates : List (String × PyFloat)) :
    ∀ (now : ℕ) (tbl : List RateRow) (code : String),
      code ∉ rates.map Prod.fst →
      findRow (write_latest_exchange_rates rates now tbl) code = findRow tbl code := by
  induction rates with
  | nil => intro now tbl code _; rfl
  | cons p rest ih =>
    intro now tbl code hnm
    simp only [List.map_cons, List.mem_cons, not_or] at hnm
    simp only [write_latest_exchange_rates, List.foldl_cons]
    have hW := ih now (upsertRow tbl p.1 p.2 now) code hnm.2
    simp only [write_latest_exchange_rates] at hW
    rw [hW]
    exact findRow_upsertRow_other tbl p.1 code hnm.1 p.2 now

theorem findRow_write_mem (rates : List (String × PyFloat)) :
    ∀ (now : ℕ) (tbl : List RateRow) (code : String) (r : PyFloat),
      (rates.map Prod.fst).Nodup → (code, r) ∈ rates →
      findRow (write_latest_exchange_rates rates now tbl) code =
        some { currency_code := code, rate := r, updated_at := now,
               extra := extraOf (findRow tbl code) } := by
  induction rates with
  | nil => intro now tbl code r _ hmem; simp at hmem
  | cons p rest ih =>
    intro now tbl code r hnd hmem
    simp only [List.map_cons, List.nodup_cons] at hnd
    simp only [write_latest_exchange_rates, List.foldl_cons]
    rcases List.mem_cons.mp hmem with h | h
    · have hp1 : p.1 = code := by rw [← h]
      have hp2 : p.2 = r := by rw [← h]
      have hnm : code ∉ rest.map Prod.fst := by rw [← hp1]; exact hnd.1
      have hW := findRow_write_not_mem rest now (upsertRow tbl p.1 p.2 now) code hnm
      simp only [write_latest_exchange_rates] at hW
      rw [hW, hp1, hp2, findRow_upsertRow_self]
    · have hne : code ≠ p.1 := by
        intro hh
        exact hnd.1 (hh ▸ List.mem_map.mpr ⟨(code, r), h, rfl⟩)
      have hW := ih now (upsertRow tbl p.1 p.2 now) code r hnd.2 h
      simp only [write_latest_exchange_rates] at hW
      rw [hW, findRow_upsertRow_other tbl p.1 code hne p.2 now]

theorem nodup_write (rates : List (String × PyFloat)) :
    ∀ (now : ℕ) (tbl : List RateRow), (tableCodes tbl).Nodup →
      (tableCodes (write_latest_exchange_rates rates now tbl)).Nodup := by
  induction rates with
  | nil => intro now tbl h; exact h
  | cons p rest ih =>
    intro now tbl h
    simp only [write_latest_exchange_rates, List.foldl_cons]
    have := ih now (upsertRow tbl p.1 p.2 now) (nodup_upsertRow tbl h p.1 p.2 now)
    simpa [write_latest_exchange_rates] using this

/-- C9: writing the same rate mapping twice is idempotent up to timestamps.
Codes are unique in the mapping (a python dictionary) and in the table (its
primary key); after the second write the table holds exactly one row for a
currency of the mapping, carrying the mapping's rate and the second write's
timestamp, and the columns other than rate and timestamp are exactly those
the row had after the first write (untouched on conflict). -/
theorem write_twice_idempotent (rates : List (String × PyFloat))
    (hr : (rates.map Prod.fst).Nodup) (tbl : List RateRow)
    (ht : (tableCodes tbl).Nodup) (now1 now2 : ℕ) (code : String) (r : PyFloat)
    (hmem : (code, r) ∈ rates) :
    ((write_latest_exchange_rates rates now2
        (write_latest_exchange_rates rates now1 tbl)).filter
      (fun row => row.currency_code == code)).length = 1 ∧
    (∀ row ∈ write_latest_exchange_rates rates now2
        (write_latest_exchange_rates rates now1 tbl),
      row.currency_code = code →
        row.rate = r ∧ row.updated_at = now2 ∧
        ∃ row1 ∈ write_latest_exchange_rates rates now1 tbl,
          row1.currency_code = code ∧ row.extra = row1.extra) := by
  have h1 := findRow_write_mem rates now1 tbl code r hr hmem
  have h2 := findRow_write_mem rates now2
    (write_latest_exchange_rates rates now1 tbl) code r hr hmem
  rw [h1] at h2
  simp only [extraOf_some] at h2
  have ht1 : (tableCodes (write_latest_exchange_rates rates now1 tbl)).Nodup :=
    nodup_write rates now1 tbl ht
  have ht2 : (tableCodes (write_latest_exchange_rates rates now2
      (write_latest_exchange_rates rates now1 tbl))).Nodup :=
    nodup_write rates now2 _ ht1
  have hfil := filter_eq_of_findRow _ ht2 code _ h2
  constructor
  · rw [hfil]
    rfl
  · intro row hrow hcc
    have hmemf : row ∈ (write_latest_exchange_rates rates now2
        (write_latest_exchange_rates rates now1 tbl)).filter
          (fun r0 => r0.currency_code == code) :=
      List.mem_filter.mpr ⟨hrow, by simp [hcc]⟩
    rw [hfil] at hmemf
    have hroweq := List.mem_singleton.mp hmemf
    subst hroweq
    exact ⟨rfl, rfl, _, List.mem_of_find?_eq_some h1, rfl, rfl⟩

/-- C9 witness: writing the mapping EUR = 1.0, USD = 2.0 twice onto an empty
table, at timestamps 0 and then 1, checked at the USD entry. -/
theorem write_twice_idempotent_witness :
    ((write_latest_exchange_rates [("EUR", some 1), ("USD", some 2)] 1
        (write_latest_exchange_rates [("EUR", some 1), ("USD", some 2)] 0 [])).filter
      (fun row => row.currency_code == "USD")).length = 1 ∧
    (∀ row ∈ write_latest_exchange_rates [("EUR", some 1), ("USD", some 2)] 1
        (write_latest_exchange_rates [("EUR", some 1), ("USD", some 2)] 0 []),
      row.currency_code = "USD" →
        row.rate = some 2 ∧ row.updated_at = 1 ∧
        ∃ row1 ∈ write_latest_exchange_rates [("EUR", some 1), ("USD", some 2)] 0 [],
          row1.currency_code = "USD" ∧ row.extra = row1.extra) :=
  write_twice_idempotent [("EUR", some 1), ("USD", some 2)] (by decide) [] (by decide)
    0 1 "USD" (some 2) (by decide)

end EcbPipeline
